import Mathlib

/-!
Verification of the batched, type-converting log-ingestion pipeline of the
w3c-extendedlog-parser CLI (commands push2pg and push2es).

The Go sources are shallowly embedded: Go strings are lists of byte values
(List Nat), Go errors are Except String or Option String, the external
world of one uploadPG run (parser results, uuid generation, CopyFrom and
VACUUM outcomes) is an explicit environment record, and the pgx CopyFrom
driver is modelled by its documented contract (call Next, and while it
returns true read Values).
-/

namespace Wlp

/-! ## Charset-repair chain (decodeCharset and its helpers) -/

/-- Continuation byte test for UTF-8 validation: 0x80..0xBF. -/
def isCont (b : Nat) : Bool := 128 ≤ b && b ≤ 191

/-- Accepted second byte for a three-byte sequence, per lead byte:
models the acceptRanges table of the Go standard library utf8 package
(E0 requires A0..BF, ED requires 80..9F, others a plain continuation). -/
def utf8Accept2 (b c : Nat) : Bool :=
  if b == 224 then 160 ≤ c && c ≤ 191
  else if b == 237 then 128 ≤ c && c ≤ 159
  else isCont c

/-- Accepted second byte for a four-byte sequence, per lead byte
(F0 requires 90..BF, F4 requires 80..8F, others a plain continuation). -/
def utf8Accept3 (b c : Nat) : Bool :=
  if b == 240 then 144 ≤ c && c ≤ 191
  else if b == 244 then 128 ≤ c && c ≤ 143
  else isCont c

/-- Models utf8.ValidString of the Go standard library on a byte string:
RFC 3629 UTF-8 (no overlong forms, no surrogates, at most U+10FFFF). -/
def validUTF8 : List Nat → Bool
  | [] => true
  | b :: rest =>
    if b ≤ 127 then validUTF8 rest
    else if 194 ≤ b && b ≤ 223 then
      match rest with
      | c :: r2 => isCont c && validUTF8 r2
      | [] => false
    else if 224 ≤ b && b ≤ 239 then
      match rest with
      | c :: d :: r2 => utf8Accept2 b c && isCont d && validUTF8 r2
      | _ => false
    else if 240 ≤ b && b ≤ 244 then
      match rest with
      | c :: d :: e :: r2 => utf8Accept3 b c && isCont d && isCont e && validUTF8 r2
      | _ => false
    else false

/-- Code point assigned to a byte by ISO 8859-15 (Latin-9): identical to
Latin-1 except at the eight revised positions. Every one of the 256 byte
values is assigned a code point, which is why the x/text charmap decoder
for this charset never fails. -/
def latin9Rune (b : Nat) : Nat :=
  if b == 164 then 8364        -- EURO SIGN
  else if b == 166 then 352    -- S WITH CARON
  else if b == 168 then 353    -- s WITH CARON
  else if b == 180 then 381    -- Z WITH CARON
  else if b == 184 then 382    -- z WITH CARON
  else if b == 188 then 338    -- LIGATURE OE
  else if b == 189 then 339    -- LIGATURE oe
  else if b == 190 then 376    -- Y WITH DIAERESIS
  else b

/-- UTF-8 encoding of one code point (all Latin-9 code points need at most
three bytes). -/
def utf8EncodeRune (u : Nat) : List Nat :=
  if u ≤ 127 then [u]
  else if u ≤ 2047 then [192 + u / 64, 128 + u % 64]
  else if u ≤ 65535 then [224 + u / 4096, 128 + u / 64 % 64, 128 + u % 64]
  else [240 + u / 262144, 128 + u / 4096 % 64, 128 + u / 64 % 64, 128 + u % 64]

/-- Models isoDecoder.String (x/text charmap, ISO8859_15.NewDecoder): each
input byte is reinterpreted as its Latin-9 code point and re-encoded in
UTF-8. The charmap decoder is total: it never returns an error, so the
Except value is always ok. -/
def isoDecodeString (s : List Nat) : Except String (List Nat) :=
  .ok ((s.map latin9Rune).flatMap utf8EncodeRune)

/-- Modelled from the spec: the terminal best-effort ASCII transliteration
(the go-unidecode library, outside this repository). It is unreachable in
decodeCharset because isoDecodeString never fails; the stand-in keeps the
ASCII bytes of the input. -/
def unidecodeApprox (s : List Nat) : List Nat :=
  s.filter (fun b => b ≤ 127)

/-- Embedding of decodeCharset: pass valid UTF-8 through unchanged, else
reinterpret as Latin-9, else (dead branch) transliterate. -/
def decodeCharset (s : List Nat) : List Nat :=
  if validUTF8 s then s
  else
    match isoDecodeString s with
    | .ok utf => utf
    | .error _ => unidecodeApprox s

/-! ## Kinds and value conversion (pgDefaultVal, pgConvert) -/

/-- The parser library's closed Kind enum (spec section 3; the library is
part of this repository but not under src/, so the enum is taken from the
spec and from the constructor names used by the CLI code). -/
inductive Kind where
  | MyDate | MyIP | MyTime | MyTimestamp | MyURI
  | Float64 | Int64 | Bool | String
deriving DecidableEq

/-- Fields of parser.Date (year, month, day), Go ints modelled as Int. -/
structure PDate where
  Year : Int
  Month : Int
  Day : Int
deriving DecidableEq

/-- Modelled from the spec: parser.Date.IsZero, the parsed value reporting
itself as the zero value (all fields zero). -/
def PDate.IsZero (d : PDate) : Bool :=
  d.Year == 0 && d.Month == 0 && d.Day == 0

/-- Fields of parser.Time (hour, minute, second, nanosecond). -/
structure PTime where
  Hour : Int
  Minute : Int
  Second : Int
  Nanosecond : Int
deriving DecidableEq

/-- Modelled from the spec: parser.Time.IsZero, the parsed value reporting
itself as the zero value (all fields zero). -/
def PTime.IsZero (t : PTime) : Bool :=
  t.Hour == 0 && t.Minute == 0 && t.Second == 0 && t.Nanosecond == 0

/-- Models Go time.Time as broken-down UTC fields. -/
structure GoTime where
  Year : Int
  Month : Int
  Day : Int
  Hour : Int
  Minute : Int
  Second : Int
  Nanosecond : Int
deriving DecidableEq

/-- Go time.Time.IsZero: January 1 of year 1, 00:00:00 UTC. -/
def GoTime.IsZero (t : GoTime) : Bool :=
  t.Year == 1 && t.Month == 1 && t.Day == 1 &&
    t.Hour == 0 && t.Minute == 0 && t.Second == 0 && t.Nanosecond == 0

/-- A raw parsed field value as handed to pgConvert (the dynamic content of
the Go interface value; absence, Go nil, is Option.none at the call site). -/
inductive RawValue where
  | date (d : PDate)
  | ip (addr : List Nat)
  | time (t : PTime)
  | timestamp (t : GoTime)
  | str (s : List Nat)
  | float (x : Float)
  | int (n : Int)
  | bool (b : Bool)

/-- A converted value as appended to a row for the relational sink: the
typed null markers of pgDefaultVal, the converted payloads of pgConvert,
the uuid bytes of the synthetic id column, and the panic a failed Go type
assertion would raise. -/
inductive PGValue where
  | dateNull
  | inetNull
  | timeNull
  | tstzNull
  | float8Null
  | int8Null
  | boolNull
  | str (s : List Nat)
  | timeDate (y mo d : Int)
  | inet (addr : List Nat)
  | myTime (t : PTime)
  | tstz (t : GoTime)
  | float (x : Float)
  | int (n : Int)
  | bool (b : Bool)
  | bytes (bs : List Nat)
  | conversionPanic

/-- Embedding of pgDefaultVal: the sink's null representation per kind
(pgtype null-status records, a nil MyMyTime pointer for MyTime, and the
empty string for the two text kinds and the fallthrough). -/
def pgDefaultVal (t : Kind) : PGValue :=
  match t with
  | .MyDate => .dateNull
  | .MyIP => .inetNull
  | .MyTime => .timeNull
  | .MyTimestamp => .tstzNull
  | .MyURI => .str []
  | .Float64 => .float8Null
  | .Int64 => .int8Null
  | .Bool => .boolNull
  | .String => .str []

/-- Embedding of pgConvert: nil goes to the kind's default, zero temporal
values go to the kind's default, text runs through decodeCharset, numbers
and booleans pass through, and a value whose dynamic type does not match the
kind's type assertion panics. -/
def pgConvert (t : Kind) (value : Option RawValue) : PGValue :=
  match value with
  | none => pgDefaultVal t
  | some v =>
    match t, v with
    | .MyDate, .date d => if d.IsZero then pgDefaultVal t else .timeDate d.Year d.Month d.Day
    | .MyIP, .ip addr => .inet addr
    | .MyTime, .time tm => if tm.IsZero then pgDefaultVal t else .myTime tm
    | .MyTimestamp, .timestamp ts => if ts.IsZero then pgDefaultVal t else .tstz ts
    | .MyURI, .str s => .str (decodeCharset s)
    | .Float64, .float x => .float x
    | .Int64, .int n => .int n
    | .Bool, .bool b => .bool b
    | .String, .str s => .str (decodeCharset s)
    | _, _ => .conversionPanic

/-! ## Claims C3 and C4 -/

/-- C3: converting an absent (nil) raw value returns the kind's typed null
marker (the specific per-kind marker, not a generic nil), except the String
and URI kinds whose null representation is the empty string; and for the
Date, Time and Timestamp kinds a value reporting itself zero converts to
the same null marker as an absent value. -/
theorem claim3 :
    (∀ k : Kind, pgConvert k none = pgDefaultVal k) ∧
    (pgDefaultVal Kind.MyDate = PGValue.dateNull ∧
     pgDefaultVal Kind.MyIP = PGValue.inetNull ∧
     pgDefaultVal Kind.MyTime = PGValue.timeNull ∧
     pgDefaultVal Kind.MyTimestamp = PGValue.tstzNull ∧
     pgDefaultVal Kind.Float64 = PGValue.float8Null ∧
     pgDefaultVal Kind.Int64 = PGValue.int8Null ∧
     pgDefaultVal Kind.Bool = PGValue.boolNull) ∧
    (pgDefaultVal Kind.MyURI = PGValue.str [] ∧
     pgDefaultVal Kind.String = PGValue.str []) ∧
    (∀ d : PDate, d.IsZero = true →
      pgConvert Kind.MyDate (some (RawValue.date d)) = pgDefaultVal Kind.MyDate) ∧
    (∀ t : PTime, t.IsZero = true →
      pgConvert Kind.MyTime (some (RawValue.time t)) = pgDefaultVal Kind.MyTime) ∧
    (∀ ts : GoTime, ts.IsZero = true →
      pgConvert Kind.MyTimestamp (some (RawValue.timestamp ts)) = pgDefaultVal Kind.MyTimestamp) := by
  refine ⟨fun k => rfl, ⟨rfl, rfl, rfl, rfl, rfl, rfl, rfl⟩, ⟨rfl, rfl⟩, ?_, ?_, ?_⟩
  · intro d h
    simp [pgConvert, h]
  · intro t h
    simp [pgConvert, h]
  · intro ts h
    simp [pgConvert, h]

/-- Witness for C3 at concrete inputs: a nil date, the zero date, the zero
time and the zero timestamp. -/
theorem claim3_witness :
    pgConvert Kind.MyDate none = pgDefaultVal Kind.MyDate ∧
    pgConvert Kind.MyDate (some (RawValue.date ⟨0, 0, 0⟩)) = pgDefaultVal Kind.MyDate ∧
    pgConvert Kind.MyTime (some (RawValue.time ⟨0, 0, 0, 0⟩)) = pgDefaultVal Kind.MyTime ∧
    pgConvert Kind.MyTimestamp (some (RawValue.timestamp ⟨1, 1, 1, 0, 0, 0, 0⟩))
      = pgDefaultVal Kind.MyTimestamp :=
  ⟨claim3.1 Kind.MyDate,
   claim3.2.2.2.1 ⟨0, 0, 0⟩ rfl,
   claim3.2.2.2.2.1 ⟨0, 0, 0, 0⟩ rfl,
   claim3.2.2.2.2.2 ⟨1, 1, 1, 0, 0, 0, 0⟩ rfl⟩

/-- C4: the charset-repair function is the identity on inputs that are
already valid UTF-8, and it is pure and deterministic (equal inputs give
equal outputs; the embedding is a function, so determinism is inherent). -/
theorem claim4 :
    (∀ s : List Nat, validUTF8 s = true → decodeCharset s = s) ∧
    (∀ s t : List Nat, s = t → decodeCharset s = decodeCharset t) := by
  refine ⟨fun s h => ?_, fun s t h => by rw [h]⟩
  simp [decodeCharset, h]

/-- Witness for C4: a concrete valid-UTF-8 string (an ASCII letter
followed by a two-byte sequence) passes through unchanged. -/
theorem claim4_witness :
    decodeCharset [97, 195, 169] = [97, 195, 169] ∧
    decodeCharset [] = decodeCharset [] :=
  ⟨claim4.1 [97, 195, 169] (by decide), claim4.2 [] [] rfl⟩

/-! ## Binary time-of-day encoding (MyMyTime.EncodeBinary) -/

/-- Constant usecsPerHour of the source. -/
def usecsPerHour : Int := 3600000000

/-- Constant usecsPerMinute of the source. -/
def usecsPerMinute : Int := 60000000

/-- Constant usecsPerSec of the source. -/
def usecsPerSec : Int := 1000000

/-- Constant nanosecsPerUsec of the source. -/
def nanosecsPerUsec : Int := 1000

/-- Big-endian bytes of the low 64 bits of an integer (two's complement),
as pgio.AppendInt64 writes them. -/
def int64BE (n : Int) : List Nat :=
  let u : Nat := (Int.emod n (2 ^ 64)).toNat
  [u / 2 ^ 56 % 256, u / 2 ^ 48 % 256, u / 2 ^ 40 % 256, u / 2 ^ 32 % 256,
   u / 2 ^ 24 % 256, u / 2 ^ 16 % 256, u / 2 ^ 8 % 256, u % 256]

/-- Models pgio.AppendInt64: append the 8 big-endian bytes of an int64 to a
byte buffer. -/
def pgioAppendInt64 (buf : List Nat) (n : Int) : List Nat :=
  buf ++ int64BE n

/-- Big-endian value of a byte list (to read an encoding back). -/
def beToNat (bs : List Nat) : Nat :=
  bs.foldl (fun a b => 256 * a + b) 0

/-- MyMyTime wraps parser.Time so it can be serialized to the sink. -/
structure MyMyTime where
  Time : PTime
deriving DecidableEq

/-- Embedding of MyMyTime.EncodeBinary: a nil receiver yields nil, else the
microseconds-since-midnight total is appended as an int64 (Go int64
arithmetic wraps modulo 2 to the 64, which int64BE applies; Go integer
division truncates toward zero, which is Int.tdiv). -/
def MyMyTime.EncodeBinary (src : Option MyMyTime) (buf : List Nat) : Option (List Nat) :=
  match src with
  | none => none
  | some t =>
    some (pgioAppendInt64 buf
      (t.Time.Hour * usecsPerHour + t.Time.Minute * usecsPerMinute +
       t.Time.Second * usecsPerSec + Int.tdiv t.Time.Nanosecond nanosecsPerUsec))

/-- Reading back eight big-endian base-256 digits of a value below 2 to the
64 returns the value. -/
theorem beToNat_digits (u : Nat) (h : u < 2 ^ 64) :
    beToNat [u / 2 ^ 56 % 256, u / 2 ^ 48 % 256, u / 2 ^ 40 % 256, u / 2 ^ 32 % 256,
             u / 2 ^ 24 % 256, u / 2 ^ 16 % 256, u / 2 ^ 8 % 256, u % 256] = u := by
  simp only [beToNat, List.foldl]
  omega

/-- C7: for every non-nil, non-zero time value (fields in their calendar
ranges), the bytes written to the sink are the previous buffer followed by
eight bytes that read back, big-endian, as exactly
hour * 3600000000 + minute * 60000000 + second * 1000000 + nanosecond / 1000,
the microseconds since midnight. -/
theorem claim7 (t : PTime) (buf : List Nat)
    (h1 : 0 ≤ t.Hour) (h2 : t.Hour < 24)
    (h3 : 0 ≤ t.Minute) (h4 : t.Minute < 60)
    (h5 : 0 ≤ t.Second) (h6 : t.Second < 60)
    (h7 : 0 ≤ t.Nanosecond) (h8 : t.Nanosecond < 1000000000)
    (h9 : t.IsZero = false) :
    ∃ w : List Nat,
      MyMyTime.EncodeBinary (some ⟨t⟩) buf = some (buf ++ w) ∧
      w.length = 8 ∧
      (beToNat w : Int) =
        t.Hour * 3600000000 + t.Minute * 60000000 + t.Second * 1000000 +
          Int.tdiv t.Nanosecond 1000 := by
  obtain ⟨H, hH⟩ : ∃ m : Nat, t.Hour = (m : Int) :=
    ⟨t.Hour.toNat, (Int.toNat_of_nonneg h1).symm⟩
  obtain ⟨M, hM⟩ : ∃ m : Nat, t.Minute = (m : Int) :=
    ⟨t.Minute.toNat, (Int.toNat_of_nonneg h3).symm⟩
  obtain ⟨S, hS⟩ : ∃ m : Nat, t.Second = (m : Int) :=
    ⟨t.Second.toNat, (Int.toNat_of_nonneg h5).symm⟩
  obtain ⟨N, hN⟩ : ∃ m : Nat, t.Nanosecond = (m : Int) :=
    ⟨t.Nanosecond.toNat, (Int.toNat_of_nonneg h7).symm⟩
  have htd : Int.tdiv t.Nanosecond nanosecsPerUsec = ((N / 1000 : Nat) : Int) := by
    rw [hN]; rfl
  have htd2 : Int.tdiv t.Nanosecond 1000 = ((N / 1000 : Nat) : Int) := by
    rw [hN]; rfl
  have hHlt : H < 24 := by rw [hH] at h2; exact_mod_cast h2
  have hMlt : M < 60 := by rw [hM] at h4; exact_mod_cast h4
  have hSlt : S < 60 := by rw [hS] at h6; exact_mod_cast h6
  have hNlt : N < 1000000000 := by rw [hN] at h8; exact_mod_cast h8
  have hcast : t.Hour * usecsPerHour + t.Minute * usecsPerMinute +
      t.Second * usecsPerSec + Int.tdiv t.Nanosecond nanosecsPerUsec =
      ((H * 3600000000 + M * 60000000 + S * 1000000 + N / 1000 : Nat) : Int) := by
    rw [hH, hM, hS, htd]
    unfold usecsPerHour usecsPerMinute usecsPerSec
    push_cast
    ring
  have hUlt : H * 3600000000 + M * 60000000 + S * 1000000 + N / 1000 < 2 ^ 64 := by
    have : N / 1000 ≤ 1000000000 := by omega
    omega
  refine ⟨int64BE ((H * 3600000000 + M * 60000000 + S * 1000000 + N / 1000 : Nat) : Int),
    ?_, rfl, ?_⟩
  · show some (pgioAppendInt64 buf _) = _
    rw [hcast]
    rfl
  · have hmod : Int.emod ((H * 3600000000 + M * 60000000 + S * 1000000 + N / 1000 : Nat) : Int)
        (2 ^ 64) = ((H * 3600000000 + M * 60000000 + S * 1000000 + N / 1000 : Nat) : Int) :=
      Int.emod_eq_of_lt (Int.ofNat_nonneg _) (by exact_mod_cast hUlt)
    calc (beToNat (int64BE ((H * 3600000000 + M * 60000000 + S * 1000000 + N / 1000 : Nat) : Int)) : Int)
        = ((H * 3600000000 + M * 60000000 + S * 1000000 + N / 1000 : Nat) : Int) := by
          simp only [int64BE, hmod, Int.toNat_natCast]
          rw [beToNat_digits _ hUlt]
      _ = t.Hour * 3600000000 + t.Minute * 60000000 + t.Second * 1000000 +
            Int.tdiv t.Nanosecond 1000 := by
          rw [hH, hM, hS, htd2]
          push_cast
          ring

/-- Witness for C7: the time 01:02:03.004000 encodes to the microsecond
total 3723004000. -/
theorem claim7_witness :
    ∃ w : List Nat,
      MyMyTime.EncodeBinary (some ⟨⟨1, 2, 3, 4000000⟩⟩) [] = some ([] ++ w) ∧
      w.length = 8 ∧
      (beToNat w : Int) =
        (1 : Int) * 3600000000 + 2 * 60000000 + 3 * 1000000 + Int.tdiv 4000000 1000 :=
  claim7 ⟨1, 2, 3, 4000000⟩ [] (by decide) (by decide) (by decide) (by decide)
    (by decide) (by decide) (by decide) (by decide) (by decide)

/-! ## Row buffer and pool (Row, Rows, Source)

A Go Row is a slice with a length and a capacity; it is modelled by the
field list plus the capacity. The sync.Pool only recycles backing storage:
every row it hands out was created by the factory with capacity nbFields
and is truncated to length 0 before use, so a checked-out row is modelled
as an empty row of capacity nbFields. -/

/-- A row: converted values plus the slice capacity. -/
structure Row where
  cap : Nat
  fields : List PGValue

/-- Embedding of Row.AddField: append while below capacity, else a
capacity error (the row is not changed). -/
def Row.AddField (r : Row) (v : PGValue) : Except String Row :=
  if r.fields.length < r.cap then .ok { r with fields := r.fields ++ [v] }
  else .error ("too many fields (max " ++ toString r.cap ++ ")")

/-- The batch: capacity maxSize, row width nbFields, rows in order. -/
structure Rows where
  maxSize : Nat
  nbFields : Nat
  rows : List Row

/-- Embedding of RowFactory: an empty batch. -/
def RowFactory (maxSize nbFields : Nat) : Rows :=
  ⟨maxSize, nbFields, []⟩

/-- Embedding of Rows.GetRow: below capacity, append and return a fresh
empty row of capacity nbFields with wasFull false; at capacity, return
nothing, wasFull true, and the batch untouched. -/
def Rows.GetRow (r : Rows) : Option Row × Bool × Rows :=
  if r.rows.length < r.maxSize then
    (some ⟨r.nbFields, []⟩, false, { r with rows := r.rows ++ [⟨r.nbFields, []⟩] })
  else (none, true, r)

/-- First row whose field count is not nbFields, with its field count
(the loop of Rows.GetSource). -/
def badRowIdx (nbFields : Nat) : List Row → Option (Nat × Nat)
  | [] => none
  | row :: rest =>
    if row.fields.length ≠ nbFields then some (0, row.fields.length)
    else
      match badRowIdx nbFields rest with
      | some (i, l) => some (i + 1, l)
      | none => none

/-- The error message of Rows.GetSource. -/
def fieldsErr (i expected got : Nat) : String :=
  "wrong number of fields (for line " ++ toString i ++ ", expected " ++
    toString expected ++ ", got " ++ toString got ++ ")"

/-- The cursor over a batch; idx starts at the Go zero value 0. -/
structure Source where
  r : Rows
  idx : Nat

/-- Embedding of Rows.Len. -/
def Rows.Len (r : Rows) : Nat := r.rows.length

/-- Embedding of Rows.GetSource: validate every row has nbFields fields,
else fail naming the first offending row index and both counts. -/
def Rows.GetSource (r : Rows) : Except String Source :=
  match badRowIdx r.nbFields r.rows with
  | some (i, l) => .error (fieldsErr i r.nbFields l)
  | none => .ok ⟨r, 0⟩

/-- Embedding of Rows.Clear: rows return to the pool, the batch empties. -/
def Rows.Clear (r : Rows) : Rows := { r with rows := [] }

/-- Embedding of Source.Next: advance idx first, then report whether it is
still in range. -/
def Source.Next (s : Source) : Bool × Source :=
  let s2 : Source := { s with idx := s.idx + 1 }
  (decide (s2.idx < s2.r.Len), s2)

/-- Embedding of Source.Values: the row at the current idx. -/
def Source.Values (s : Source) : Option (List PGValue) :=
  (s.r.rows[s.idx]?).map Row.fields

/-- The pgx CopyFrom driver loop over a CopyFromSource, per its documented
contract: call Next and, while it returns true, read Values; fuel bounds
the recursion and Len plus one is always enough. -/
def consumeFrom (s : Source) (fuel : Nat) : List (List PGValue) :=
  match fuel with
  | 0 => []
  | fuel + 1 =>
    match s.Next with
    | (true, s2) =>
      match s2.Values with
      | some vs => vs :: consumeFrom s2 fuel
      | none => []
    | (false, _) => []

/-- All rows a CopyFrom call reads from the cursor, in order. -/
def Source.consume (s : Source) : List (List PGValue) :=
  consumeFrom s (s.r.Len + 1)

/-! ## Claims C5 and C6 -/

/-- C5: on a well-formed batch, checkout returns no row and wasFull true,
mutating nothing, exactly when the batch already holds capacity rows; with
spare capacity it returns a fresh row of length 0 and capacity nbFields,
appended to the batch, with wasFull false. -/
theorem claim5 (r : Rows) (hwf : r.rows.length ≤ r.maxSize) :
    (r.GetRow = (none, true, r) ↔ r.rows.length = r.maxSize) ∧
    (r.rows.length < r.maxSize →
      r.GetRow = (some ⟨r.nbFields, []⟩, false,
        { r with rows := r.rows ++ [⟨r.nbFields, []⟩] })) := by
  constructor
  · constructor
    · intro h
      by_contra hne
      have hlt : r.rows.length < r.maxSize := lt_of_le_of_ne hwf hne
      rw [Rows.GetRow, if_pos hlt] at h
      simp at h
    · intro h
      rw [Rows.GetRow, if_neg (by omega)]
  · intro hlt
    rw [Rows.GetRow, if_pos hlt]

/-- Witness for C5: a batch at capacity 0 refuses checkout and is
unchanged; a batch with spare capacity yields an empty three-wide row. -/
theorem claim5_witness :
    (RowFactory 0 3).GetRow = (none, true, RowFactory 0 3) ∧
    (RowFactory 2 3).GetRow = (some ⟨3, []⟩, false,
      { RowFactory 2 3 with rows := [] ++ [⟨3, []⟩] }) :=
  ⟨(claim5 (RowFactory 0 3) (by decide)).1.mpr rfl,
   (claim5 (RowFactory 2 3) (by decide)).2 (by decide)⟩

/-- Helper for C6: a batch whose rows all have nbFields fields has no bad
row. -/
theorem badRowIdx_none (nbFields : Nat) (l : List Row)
    (h : ∀ row ∈ l, row.fields.length = nbFields) :
    badRowIdx nbFields l = none := by
  induction l with
  | nil => rfl
  | cons row rest ih =>
    have hr := h row (by simp)
    rw [badRowIdx, if_neg (by omega)]
    rw [ih (fun q hq => h q (by simp [hq]))]

/-- Helper for C6: the first offending row determines the reported index
and field count. -/
theorem badRowIdx_first (nbFields : Nat) (l : List Row) (i : Nat) (row : Row)
    (hget : l[i]? = some row)
    (hbad : row.fields.length ≠ nbFields)
    (hpre : ∀ j, j < i → ∀ q ∈ l[j]?, q.fields.length = nbFields) :
    badRowIdx nbFields l = some (i, row.fields.length) := by
  induction l generalizing i with
  | nil => simp at hget
  | cons head rest ih =>
    cases i with
    | zero =>
      simp at hget
      rw [badRowIdx, if_pos (by rw [hget]; omega), hget]
    | succ i =>
      have hhead : head.fields.length = nbFields := by
        have := hpre 0 (by omega)
        simp at this
        exact this
      rw [badRowIdx, if_neg (by omega)]
      rw [ih i (by simpa using hget)
        (fun j hj q hq => hpre (j + 1) (by omega) q (by simpa using hq))]

/-- C6: appending a field beyond the row's declared width fails with the
capacity error and the appended value is never silently accepted (the ok
result, when below capacity, is exactly the row plus the value); and
materializing the cursor succeeds when every row has nbFields fields,
while the first row with a different count makes it fail with the message
naming that row index and both counts. -/
theorem claim6 :
    (∀ (row : Row) (v : PGValue), row.cap ≤ row.fields.length →
      row.AddField v = .error ("too many fields (max " ++ toString row.cap ++ ")")) ∧
    (∀ (row : Row) (v : PGValue), row.fields.length < row.cap →
      row.AddField v = .ok { row with fields := row.fields ++ [v] }) ∧
    (∀ r : Rows, (∀ row ∈ r.rows, row.fields.length = r.nbFields) →
      r.GetSource = .ok ⟨r, 0⟩) ∧
    (∀ (r : Rows) (i : Nat) (row : Row), r.rows[i]? = some row →
      row.fields.length ≠ r.nbFields →
      (∀ j, j < i → ∀ q ∈ r.rows[j]?, q.fields.length = r.nbFields) →
      r.GetSource = .error (fieldsErr i r.nbFields row.fields.length)) := by
  refine ⟨?_, ?_, ?_, ?_⟩
  · intro row v h
    rw [Row.AddField, if_neg (by omega)]
  · intro row v h
    rw [Row.AddField, if_pos h]
  · intro r h
    rw [Rows.GetSource, badRowIdx_none r.nbFields r.rows h]
  · intro r i row hget hbad hpre
    rw [Rows.GetSource, badRowIdx_first r.nbFields r.rows i row hget hbad hpre]

/-- Witness for C6: a full one-wide row refuses a second value with the
capacity message; a batch of one complete row materializes; a batch whose
first row is short fails naming row 0, expected 1, got 0. -/
theorem claim6_witness :
    (Row.AddField ⟨1, [PGValue.int 7]⟩ (PGValue.int 8)
      = .error ("too many fields (max " ++ toString 1 ++ ")")) ∧
    (Rows.GetSource ⟨2, 1, [⟨1, [PGValue.int 7]⟩]⟩
      = .ok ⟨⟨2, 1, [⟨1, [PGValue.int 7]⟩]⟩, 0⟩) ∧
    (Rows.GetSource ⟨2, 1, [⟨1, []⟩]⟩ = .error (fieldsErr 0 1 0)) :=
  ⟨claim6.1 ⟨1, [PGValue.int 7]⟩ (PGValue.int 8) (by decide),
   claim6.2.2.1 ⟨2, 1, [⟨1, [PGValue.int 7]⟩]⟩ (by
    intro row hrow
    simp at hrow
    rw [hrow]
    rfl),
   claim6.2.2.2 ⟨2, 1, [⟨1, []⟩]⟩ 0 ⟨1, []⟩ rfl (by decide) (by omega)⟩

/-! ## The uploadPG run (file uploader for the relational sink)

The external world of one uploadPG call is an explicit environment: the
header parse outcome and field names (parser library), the connection
acquire outcome (pgx pool), one entry per parsed line carrying the uuid
generation outcome and the field lookup of that line, the outcome of each
successive CopyFrom call, and the outcome of the final VACUUM. A parse
error that ends the line stream early is recorded too: the code breaks out
of the loop and then overwrites err, so it is silently swallowed, which the
model reproduces by never reading the field. -/

/-- One parsed line: whether uuid.NewV1 succeeds for it, and its field
lookup (line.Get; a missing field is none, which Go sees as nil). -/
structure LineSpec where
  uuidOk : Bool
  get : String → Option RawValue

/-- The environment of one uploadPG call. -/
structure PgEnv where
  headerErr : Option String
  fieldNames : List String
  hasGmtTime : Bool
  acquireErr : Option String
  lines : List LineSpec
  parseErr : Option String
  flushErrs : List (Option String)
  vacuumErr : Option String

/-- One CopyFrom call as the sink observes it: how many rows the batch
held, and how many the cursor actually streamed. -/
structure CopyCall where
  batchLen : Nat
  streamed : Nat
deriving DecidableEq

/-- Loop state of uploadPG: the batch, the index of the next CopyFrom
call, the line counter, and the trace of CopyFrom calls made so far. -/
structure PgSt where
  rows : Rows
  flushIdx : Nat
  nbLines : Nat
  calls : List CopyCall

/-- Outcome of CopyFrom call number k in the environment: entries beyond
the oracle list succeed. -/
def flushResult (flushErrs : List (Option String)) (k : Nat) : Option String :=
  (flushErrs[k]?).getD none

/-- Embedding of the uploadRows closure: an empty batch is a no-op;
otherwise materialize the cursor (GetSource), stream it through one
CopyFrom call, and on success clear the batch. -/
def uploadRows (flushErrs : List (Option String)) (st : PgSt) : Except String PgSt :=
  if st.rows.Len = 0 then .ok st
  else
    match st.rows.GetSource with
    | .error e => .error e
    | .ok src =>
      let call : CopyCall := ⟨st.rows.Len, src.consume.length⟩
      match flushResult flushErrs st.flushIdx with
      | some e => .error e
      | none =>
        .ok ⟨st.rows.Clear, st.flushIdx + 1, st.nbLines, st.calls ++ [call]⟩

/-- AddField through the row pointer GetRow returned: the checked-out row
is the last row of the batch. -/
def addToLast (rs : Rows) (v : PGValue) : Except String Rows :=
  match rs.rows.getLast? with
  | none => .error "no current row"
  | some row =>
    match row.AddField v with
    | .error e => .error e
    | .ok row2 => .ok { rs with rows := rs.rows.dropLast ++ [row2] }

/-- The per-line field loop of uploadPG: for the synthetic id column,
generate a uuid (the environment says whether that succeeds; the bytes are
opaque) and append it; for every other column, append the pgConvert of the
line's value under the column's guessed kind. -/
def fillRow (guess : String → Kind) (l : LineSpec) : List String → Rows → Except String Rows
  | [], rs => .ok rs
  | name :: rest, rs =>
    if name = "id" then
      if l.uuidOk then
        match addToLast rs (PGValue.bytes []) with
        | .error e => .error e
        | .ok rs2 => fillRow guess l rest rs2
      else .error "uuid error"
    else
      match addToLast rs (pgConvert (guess name) (l.get name)) with
      | .error e => .error e
      | .ok rs2 => fillRow guess l rest rs2

/-- One iteration of the line loop: check out a row; when the batch is
full, flush it first and check out from the emptied batch; then count the
line and fill the row in column order. -/
def pgProcessLine (guess : String → Kind) (flushErrs : List (Option String))
    (names : List String) (st : PgSt) (l : LineSpec) : Except String PgSt :=
  let g := st.rows.GetRow
  if g.2.1 then
    match uploadRows flushErrs { st with rows := g.2.2 } with
    | .error e => .error e
    | .ok st2 =>
      let g2 := st2.rows.GetRow
      match fillRow guess l names g2.2.2 with
      | .error e => .error e
      | .ok rs3 => .ok { st2 with rows := rs3, nbLines := st2.nbLines + 1 }
  else
    match fillRow guess l names g.2.2 with
    | .error e => .error e
    | .ok rs2 => .ok { st with rows := rs2, nbLines := st.nbLines + 1 }

/-- The line loop of uploadPG over the parsed lines. -/
def pgLoop (guess : String → Kind) (flushErrs : List (Option String))
    (names : List String) : List LineSpec → PgSt → Except String PgSt
  | [], st => .ok st
  | l :: rest, st =>
    match pgProcessLine guess flushErrs names st l with
    | .error e => .error e
    | .ok st2 => pgLoop guess flushErrs names rest st2

/-- The column list of uploadPG: the synthetic id first, then gmttime when
the parser does not expose a GMT timestamp natively, then the header's
field names. -/
def curFieldNames (env : PgEnv) : List String :=
  "id" :: (if env.hasGmtTime then env.fieldNames else "gmttime" :: env.fieldNames)

/-- What uploadPG returns, plus the observable CopyFrom trace of a
successful run (the code returns only the pair; on the early-return error
paths the trace field is not meaningful and is left empty). -/
structure PgResult where
  nbLines : Nat
  err : Option String
  calls : List CopyCall
deriving DecidableEq

/-- Embedding of uploadPG: header parse, connection acquire, the line loop
with batched flushes, the trailing flush, then VACUUM; every failure
before VACUUM returns a zero line count with the error, and the VACUUM
outcome is returned alongside the true line count. -/
def uploadPG (guess : String → Kind) (env : PgEnv) (bsize : Nat) : PgResult :=
  match env.headerErr with
  | some e => ⟨0, some e, []⟩
  | none =>
    match env.acquireErr with
    | some e => ⟨0, some e, []⟩
    | none =>
      let names := curFieldNames env
      match pgLoop guess env.flushErrs names env.lines ⟨RowFactory bsize names.length, 0, 0, []⟩ with
      | .error e => ⟨0, some e, []⟩
      | .ok st =>
        match uploadRows env.flushErrs st with
        | .error e => ⟨0, some e, []⟩
        | .ok st2 => ⟨st2.nbLines, env.vacuumErr, st2.calls⟩

/-! ## The two drivers (uploadFilePG and the push2es command)

The worker pool hands filenames to workers that each run one file at a
time; per-file behavior is sequential, and the claims below concern only
whether an error in one file stops the run, so the dispatch is modelled as
a sequential pass over the file list. -/

/-- One input file of the relational driver: the outcome of os.Open, then
the environment of its uploadPG call. -/
structure PgFileSpec where
  openErr : Option String
  env : PgEnv

/-- The status line uploadFilePG writes for one file. -/
inductive PgOutcome where
  | openFailed (e : String)
  | uploadFailed (e : String)
  | success (nbLines : Nat)
deriving DecidableEq

/-- Embedding of uploadFilePG: an open error is reported and the file
skipped; an upload error is reported; a success reports the line count.
No path terminates the process. -/
def uploadFilePG (guess : String → Kind) (bsize : Nat) (f : PgFileSpec) : PgOutcome :=
  match f.openErr with
  | some e => .openFailed e
  | none =>
    let r := uploadPG guess f.env bsize
    match r.err with
    | some e => .uploadFailed e
    | none => .success r.nbLines

/-- Embedding of uploadFilesPG: every file is processed and yields a
status line. -/
def uploadFilesPG (guess : String → Kind) (bsize : Nat)
    (files : List PgFileSpec) : List PgOutcome :=
  files.map (uploadFilePG guess bsize)

/-- One input file of the index driver: the os.Open outcome, the header
parse outcome, the number of lines the parser yields, and the outcome of
each successive bulk Flush call. A parse error that ends the line stream
early is not reported by the code at all, so it needs no field. -/
structure EsFileSpec where
  openErr : Option String
  headerErr : Option String
  nLines : Nat
  flushErrs : List (Option String)
deriving DecidableEq

/-- The per-file outcome in the index driver. -/
inductive EsOutcome where
  | openFailed (e : String)
  | headerFailed (e : String)
  | pushed
deriving DecidableEq

/-- The bulk-index line loop of push2es: count lines, flush after every
1000 queued actions, and flush the remainder at end of file; each Flush is
wrapped in fatal, so the first failing one exits the process (returned as
some error). -/
def esLineLoop (flushErrs : List (Option String)) : Nat → Nat → Nat → Option String
  | 0, i, k => if 0 < i then flushResult flushErrs k else none
  | n + 1, i, k =>
    if 1000 ≤ i + 1 then
      match flushResult flushErrs k with
      | some e => some e
      | none => esLineLoop flushErrs n 0 (k + 1)
    else esLineLoop flushErrs n (i + 1) k

/-- One file of the push2es loop: open and header-parse errors are printed
and the file is skipped (ok outcomes); a Flush error is fatal (error). -/
def esProcessFile (f : EsFileSpec) : Except String EsOutcome :=
  match f.openErr with
  | some e => .ok (.openFailed e)
  | none =>
    match f.headerErr with
    | some e => .ok (.headerFailed e)
    | none =>
      match esLineLoop f.flushErrs f.nLines 0 0 with
      | some e => .error e
      | none => .ok .pushed

/-- Result of the push2es command over its file list: either the process
exits through fatal while some files remain, or all files are processed. -/
inductive EsRunResult where
  | exited (done : List EsOutcome) (e : String)
  | completed (done : List EsOutcome)
deriving DecidableEq

/-- Modelled from the spec: the fatal helper of the CLI (defined outside
src/) terminates the process when handed a non-nil error. The embedding of
the push2es file loop therefore stops at the first Flush error and
abandons the remaining files. -/
def push2es : List EsFileSpec → EsRunResult
  | [] => .completed []
  | f :: rest =>
    match esProcessFile f with
    | .error e => .exited [] e
    | .ok o =>
      match push2es rest with
      | .exited ds e => .exited (o :: ds) e
      | .completed ds => .completed (o :: ds)

/-! ## Supporting lemmas about the run models -/

/-- When every oracle entry is a success, every flush call succeeds. -/
theorem flushResult_none (fe : List (Option String)) (k : Nat)
    (h : ∀ o ∈ fe, o = none) : flushResult fe k = none := by
  unfold flushResult
  cases hk : fe[k]? with
  | none => rfl
  | some o => exact h o (List.getElem?_mem hk)

/-- A successful flush does not change the line counter. -/
theorem uploadRows_nbLines (fe : List (Option String)) (st st2 : PgSt)
    (h : uploadRows fe st = .ok st2) : st2.nbLines = st.nbLines := by
  unfold uploadRows at h
  split at h
  · rw [Except.ok.injEq] at h
    rw [← h]
  · split at h
    · simp at h
    · split at h
      · simp at h
      · rw [Except.ok.injEq] at h
        rw [← h]

/-- A processed line raises the line counter by exactly one. -/
theorem pgProcessLine_nbLines (guess : String → Kind) (fe : List (Option String))
    (names : List String) (st st2 : PgSt) (l : LineSpec)
    (h : pgProcessLine guess fe names st l = .ok st2) :
    st2.nbLines = st.nbLines + 1 := by
  simp only [pgProcessLine] at h
  split at h
  · split at h
    · simp at h
    · rename_i stf hf
      split at h
      · simp at h
      · rw [Except.ok.injEq] at h
        rw [← h]
        have h3 := uploadRows_nbLines fe
          { rows := st.rows.GetRow.2.2, flushIdx := st.flushIdx,
            nbLines := st.nbLines, calls := st.calls } stf hf
        simp only [] at h3
        show stf.nbLines + 1 = st.nbLines + 1
        omega
  · split at h
    · simp at h
    · rw [Except.ok.injEq] at h
      rw [← h]

/-- A completed line loop counts exactly the processed lines. -/
theorem pgLoop_nbLines (guess : String → Kind) (fe : List (Option String))
    (names : List String) (lines : List LineSpec) (st st2 : PgSt)
    (h : pgLoop guess fe names lines st = .ok st2) :
    st2.nbLines = st.nbLines + lines.length := by
  induction lines generalizing st with
  | nil =>
    rw [pgLoop, Except.ok.injEq] at h
    rw [← h]
    rfl
  | cons l rest ih =>
    rw [pgLoop] at h
    split at h
    · simp at h
    · rename_i stm hm
      have h1 := pgProcessLine_nbLines guess fe names st stm l hm
      have h2 := ih stm h
      rw [h2, h1, List.length_cons]
      omega

/-- Appending through the checked-out row pointer: with the current row
last in the batch and below capacity, addToLast appends to it. -/
theorem addToLast_concat (rs : Rows) (init : List Row) (row : Row) (v : PGValue)
    (hrows : rs.rows = init ++ [row]) (hcap : row.fields.length < row.cap) :
    addToLast rs v = .ok { rs with rows := init ++ [{ row with fields := row.fields ++ [v] }] } := by
  unfold addToLast
  rw [hrows, List.getLast?_concat]
  simp only [Row.AddField, if_pos hcap, List.dropLast_concat]

/-- Filling the freshly checked-out row succeeds when the row has room for
every remaining column and the line's uuid generation succeeds, and it only
grows that last row. -/
theorem fillRow_ok (guess : String → Kind) (l : LineSpec) (hu : l.uuidOk = true) :
    ∀ (names : List String) (rs : Rows) (init : List Row) (row : Row),
      rs.rows = init ++ [row] →
      row.fields.length + names.length ≤ row.cap →
      ∃ row2 : Row,
        fillRow guess l names rs = .ok { rs with rows := init ++ [row2] } ∧
        row2.cap = row.cap ∧
        row2.fields.length = row.fields.length + names.length := by
  intro names
  induction names with
  | nil =>
    intro rs init row hrows hcap
    refine ⟨row, ?_, rfl, rfl⟩
    rw [fillRow, Except.ok.injEq, ← hrows]
  | cons name rest ih =>
    intro rs init row hrows hcap
    have hlt : row.fields.length < row.cap := by
      have := List.length_cons name rest ▸ hcap
      omega
    by_cases hid : name = "id"
    · have hstep := addToLast_concat rs init row (PGValue.bytes []) hrows hlt
      obtain ⟨row2, h2, hc2, hl2⟩ := ih
        { rs with rows := init ++ [{ row with fields := row.fields ++ [PGValue.bytes []] }] }
        init { row with fields := row.fields ++ [PGValue.bytes []] } rfl
        (by simp; simp [List.length_cons] at hcap; omega)
      refine ⟨row2, ?_, by rw [hc2], by rw [hl2]; simp [List.length_cons]; omega⟩
      rw [fillRow, if_pos hid, hu]
      simp only [if_true, hstep, h2]
    · have hstep := addToLast_concat rs init row (pgConvert (guess name) (l.get name)) hrows hlt
      obtain ⟨row2, h2, hc2, hl2⟩ := ih
        { rs with rows := init ++ [{ row with fields := row.fields ++ [pgConvert (guess name) (l.get name)] }] }
        init { row with fields := row.fields ++ [pgConvert (guess name) (l.get name)] } rfl
        (by simp; simp [List.length_cons] at hcap; omega)
      refine ⟨row2, ?_, by rw [hc2], by rw [hl2]; simp [List.length_cons]; omega⟩
      rw [fillRow, if_neg hid]
      simp only [hstep, h2]

/-- A flush succeeds whenever the oracle reports no CopyFrom failure and
every batched row is complete; it preserves the counters and either leaves
an empty batch alone or empties a non-empty one. -/
theorem uploadRows_ok (fe : List (Option String)) (st : PgSt)
    (hfe : ∀ o ∈ fe, o = none)
    (hrows : ∀ row ∈ st.rows.rows, row.fields.length = st.rows.nbFields) :
    ∃ st2, uploadRows fe st = .ok st2 ∧
      st2.nbLines = st.nbLines ∧
      st2.rows.maxSize = st.rows.maxSize ∧
      st2.rows.nbFields = st.rows.nbFields ∧
      (st.rows.Len = 0 → st2 = st) ∧
      (st.rows.Len ≠ 0 → st2.rows.rows = []) := by
  unfold uploadRows
  by_cases h0 : st.rows.Len = 0
  · rw [if_pos h0]
    exact ⟨st, rfl, rfl, rfl, rfl, fun _ => rfl, fun hc => absurd h0 hc⟩
  · rw [if_neg h0]
    simp only [Rows.GetSource, badRowIdx_none st.rows.nbFields st.rows.rows hrows,
      flushResult_none fe st.flushIdx hfe]
    exact ⟨_, rfl, rfl, rfl, rfl, fun hc => absurd hc h0, fun _ => rfl⟩

/-- One line of the loop succeeds under the success-path hypotheses and
preserves the loop invariant while counting the line. -/
theorem pgProcessLine_ok (guess : String → Kind) (fe : List (Option String))
    (names : List String) (B : Nat) (st : PgSt) (l : LineSpec)
    (hB : 1 ≤ B) (hu : l.uuidOk = true)
    (hfe : ∀ o ∈ fe, o = none)
    (hmax : st.rows.maxSize = B)
    (hnf : st.rows.nbFields = names.length)
    (hlen : st.rows.rows.length ≤ B)
    (hrows : ∀ row ∈ st.rows.rows, row.fields.length = names.length) :
    ∃ st2, pgProcessLine guess fe names st l = .ok st2 ∧
      st2.rows.maxSize = B ∧
      st2.rows.nbFields = names.length ∧
      st2.rows.rows.length ≤ B ∧
      (∀ row ∈ st2.rows.rows, row.fields.length = names.length) ∧
      st2.nbLines = st.nbLines + 1 := by
  by_cases hfull : st.rows.rows.length < st.rows.maxSize
  · have hgrow : st.rows.GetRow = (some ⟨st.rows.nbFields, []⟩, false,
        { st.rows with rows := st.rows.rows ++ [⟨st.rows.nbFields, []⟩] }) := by
      rw [Rows.GetRow, if_pos hfull]
    obtain ⟨row2, h2, hc2, hl2⟩ := fillRow_ok guess l hu names
      { st.rows with rows := st.rows.rows ++ [⟨st.rows.nbFields, []⟩] }
      st.rows.rows ⟨st.rows.nbFields, []⟩ rfl (by simp [hnf])
    refine ⟨{ st with
        rows := { st.rows with rows := st.rows.rows ++ [row2] },
        nbLines := st.nbLines + 1 }, ?_, hmax, hnf, ?_, ?_, rfl⟩
    · simp only [pgProcessLine, hgrow, h2]
      rfl
    · simp only [List.length_append, List.length_singleton]
      omega
    · intro row hrow
      rw [List.mem_append] at hrow
      rcases hrow with hrow | hrow
      · exact hrows row hrow
      · rw [List.mem_singleton] at hrow
        rw [hrow, hl2]
        simp
  · have hgfull : st.rows.GetRow = (none, true, st.rows) := by
      rw [Rows.GetRow, if_neg hfull]
    have hlen0 : st.rows.Len ≠ 0 := by
      rw [Rows.Len]
      omega
    obtain ⟨st2, hup, hnb2, hmax2, hnf2, _, hclear⟩ := uploadRows_ok fe
      { st with rows := st.rows } hfe (by
        intro row hrow
        rw [hnf]
        exact hrows row hrow)
    have hnb2b : st2.nbLines = st.nbLines := hnb2
    have hmax2b : st2.rows.maxSize = st.rows.maxSize := hmax2
    have hnf2b : st2.rows.nbFields = st.rows.nbFields := hnf2
    have hempty : st2.rows.rows = [] := hclear hlen0
    have hlt2 : st2.rows.rows.length < st2.rows.maxSize := by
      rw [hempty, hmax2b, hmax]
      simpa using hB
    have hgr2 : st2.rows.GetRow = (some ⟨st2.rows.nbFields, []⟩, false,
        { st2.rows with rows := st2.rows.rows ++ [⟨st2.rows.nbFields, []⟩] }) := by
      rw [Rows.GetRow, if_pos hlt2]
    obtain ⟨row2, h2, hc2, hl2⟩ := fillRow_ok guess l hu names
      { st2.rows with rows := st2.rows.rows ++ [⟨st2.rows.nbFields, []⟩] }
      st2.rows.rows ⟨st2.rows.nbFields, []⟩ rfl (by simp [hnf2b, hnf])
    refine ⟨{ st2 with
        rows := { st2.rows with rows := st2.rows.rows ++ [row2] },
        nbLines := st2.nbLines + 1 }, ?_, by rw [hmax2b, hmax], by rw [hnf2b, hnf], ?_, ?_, ?_⟩
    · simp only [pgProcessLine, hgfull, hup, hgr2, h2]
      rfl
    · simp [hempty]
      omega
    · intro row hrow
      rw [hempty] at hrow
      simp only [List.nil_append, List.mem_singleton] at hrow
      rw [hrow, hl2]
      simp [hnf2b, hnf]
    · simp only [hnb2b]

/-- The whole line loop succeeds under the success-path hypotheses,
counting every line. -/
theorem pgLoop_ok (guess : String → Kind) (fe : List (Option String))
    (names : List String) (B : Nat) (lines : List LineSpec) (st : PgSt)
    (hB : 1 ≤ B)
    (hus : ∀ l ∈ lines, l.uuidOk = true)
    (hfe : ∀ o ∈ fe, o = none)
    (hmax : st.rows.maxSize = B)
    (hnf : st.rows.nbFields = names.length)
    (hlen : st.rows.rows.length ≤ B)
    (hrows : ∀ row ∈ st.rows.rows, row.fields.length = names.length) :
    ∃ st2, pgLoop guess fe names lines st = .ok st2 ∧
      st2.rows.maxSize = B ∧
      st2.rows.nbFields = names.length ∧
      st2.rows.rows.length ≤ B ∧
      (∀ row ∈ st2.rows.rows, row.fields.length = names.length) ∧
      st2.nbLines = st.nbLines + lines.length := by
  induction lines generalizing st with
  | nil => exact ⟨st, rfl, hmax, hnf, hlen, hrows, rfl⟩
  | cons l rest ih =>
    obtain ⟨stm, hm, hmax2, hnf2, hlen2, hrows2, hnb2⟩ :=
      pgProcessLine_ok guess fe names B st l hB (hus l (by simp)) hfe hmax hnf hlen hrows
    obtain ⟨st2, h2, hmax3, hnf3, hlen3, hrows3, hnb3⟩ :=
      ih stm (fun q hq => hus q (by simp [hq])) hmax2 hnf2 hlen2 hrows2
    refine ⟨st2, ?_, hmax3, hnf3, hlen3, hrows3, ?_⟩
    · simp only [pgLoop, hm, h2]
    · rw [hnb3, hnb2, List.length_cons]
      omega

/-! ## Claim C10 -/

/-- C10: whenever uploadPG returns an error, either the failure happened
before the post-load VACUUM and the reported line count is 0, or the error
is the VACUUM outcome and the reported count is the true number of
processed lines; and a run in which every pre-VACUUM step succeeds reports
exactly the parsed line count together with the VACUUM outcome. -/
theorem claim10 (guess : String → Kind) (env : PgEnv) (B : Nat) (hB : 1 ≤ B) :
    (∀ (n : Nat) (e : String) (calls : List CopyCall),
      uploadPG guess env B = ⟨n, some e, calls⟩ →
      n = 0 ∨ (n = env.lines.length ∧ env.vacuumErr = some e)) ∧
    (env.headerErr = none → env.acquireErr = none →
      (∀ l ∈ env.lines, l.uuidOk = true) →
      (∀ o ∈ env.flushErrs, o = none) →
      (uploadPG guess env B).nbLines = env.lines.length ∧
      (uploadPG guess env B).err = env.vacuumErr) := by
  constructor
  · intro n e calls h
    cases hh : env.headerErr with
    | some e0 =>
      simp only [uploadPG, hh] at h
      rw [PgResult.mk.injEq] at h
      exact Or.inl h.1.symm
    | none =>
      cases ha : env.acquireErr with
      | some e0 =>
        simp only [uploadPG, hh, ha] at h
        rw [PgResult.mk.injEq] at h
        exact Or.inl h.1.symm
      | none =>
        cases hl : pgLoop guess env.flushErrs (curFieldNames env) env.lines
            ⟨RowFactory B (curFieldNames env).length, 0, 0, []⟩ with
        | error e0 =>
          simp only [uploadPG, hh, ha, hl] at h
          rw [PgResult.mk.injEq] at h
          exact Or.inl h.1.symm
        | ok st =>
          cases hu : uploadRows env.flushErrs st with
          | error e0 =>
            simp only [uploadPG, hh, ha, hl, hu] at h
            rw [PgResult.mk.injEq] at h
            exact Or.inl h.1.symm
          | ok st2 =>
            simp only [uploadPG, hh, ha, hl, hu] at h
            rw [PgResult.mk.injEq] at h
            right
            constructor
            · have h3 := pgLoop_nbLines guess env.flushErrs (curFieldNames env)
                env.lines _ st hl
              have h5 : st.nbLines = 0 + env.lines.length := h3
              have h4 := uploadRows_nbLines env.flushErrs st st2 hu
              have h6 := h.1
              omega
            · exact h.2.1
  · intro hh ha hus hfe
    obtain ⟨st, hloop, hmax, hnf, hlen, hrows, hnb⟩ := pgLoop_ok guess env.flushErrs
      (curFieldNames env) B env.lines
      ⟨RowFactory B (curFieldNames env).length, 0, 0, []⟩
      hB hus hfe rfl rfl (Nat.zero_le B)
      (fun row hrow => absurd hrow (List.not_mem_nil row))
    obtain ⟨st2, hup, hnb2, _, _, _, _⟩ := uploadRows_ok env.flushErrs st hfe (by
      intro row hrow
      rw [hnf]
      exact hrows row hrow)
    have hres : uploadPG guess env B = ⟨st2.nbLines, env.vacuumErr, st2.calls⟩ := by
      simp only [uploadPG, hh, ha, hloop, hup]
    rw [hres]
    refine ⟨?_, rfl⟩
    show st2.nbLines = env.lines.length
    have hnbb : st.nbLines = 0 + env.lines.length := hnb
    omega

/-- Environment for the C10 witness in which everything up to VACUUM
succeeds but the VACUUM itself fails. -/
def c10envVac : PgEnv :=
  ⟨none, [], true, none, [⟨true, fun _ => none⟩, ⟨true, fun _ => none⟩],
    none, [], some "vacuum failed"⟩

/-- Environment for the C10 witness in which the first CopyFrom fails. -/
def c10envFlush : PgEnv :=
  ⟨none, [], true, none, [⟨true, fun _ => none⟩, ⟨true, fun _ => none⟩],
    none, [some "copy failed"], none⟩

/-- A type-guess oracle used by concrete witnesses. -/
def constGuess : String → Kind := fun _ => Kind.String

/-- Witness for C10: with two parsed lines and a failing VACUUM the run
reports count 2 with the VACUUM error; with a failing CopyFrom the run
reports count 0 with that error. -/
theorem claim10_witness :
    ((uploadPG constGuess c10envVac 5).nbLines = c10envVac.lines.length ∧
     (uploadPG constGuess c10envVac 5).err = c10envVac.vacuumErr) ∧
    (0 = 0 ∨ (0 = c10envFlush.lines.length ∧ c10envFlush.vacuumErr = some "copy failed")) :=
  ⟨(claim10 constGuess c10envVac 5 (by decide)).2 rfl rfl
      (by intro l hl; fin_cases hl <;> rfl) (by intro o ho; cases ho),
   (claim10 constGuess c10envFlush 1 (by decide)).1 0 "copy failed" [] (by decide)⟩

/-! ## Claim C1 (the flush cadence and what each CopyFrom call streams) -/

/-- Environment of a clean 12-line file whose only column is the synthetic
id (the parser exposes a GMT timestamp and no further fields). -/
def c1Env : PgEnv :=
  ⟨none, [], true, none, List.replicate 12 ⟨true, fun _ => none⟩, none, [], none⟩

/-- C1, evaluated at the failing input (scaled from 12000 lines with
batches of 5000 to 12 lines with batches of 5): the run reports 12 lines
and flushes 3 times with batches of 5, 5 and 2 rows, but the cursor
streams only 4, 4 and 1 rows to the bulk-copy calls: Source.idx starts at
the Go zero value 0 and Next pre-increments before Values, so row 0 of
every batch is never handed to CopyFrom. -/
theorem claim1_bug :
    (uploadPG constGuess c1Env 5).nbLines = 12 ∧
    (uploadPG constGuess c1Env 5).err = none ∧
    (uploadPG constGuess c1Env 5).calls = [⟨5, 4⟩, ⟨5, 4⟩, ⟨2, 1⟩] := by
  exact ⟨by decide, by decide, by decide⟩

/-! ## Claim C2 -/

/-- A file whose single line is queued and whose end-of-file Flush fails. -/
def c2esBoom : EsFileSpec := ⟨none, none, 1, [some "flush failed"]⟩

/-- A later file that would be processed if the run continued. -/
def c2esNext : EsFileSpec := ⟨some "no such file", none, 0, []⟩

/-- Counterexample to C2 as stated: a per-file bulk-flush error in the
index path terminates the whole process through fatal; the second file is
never reached, instead of the run completing with both files processed. -/
theorem claim2_counterexample :
    push2es [c2esBoom, c2esNext] = .exited [] "flush failed" ∧
    push2es [c2esBoom, c2esNext] ≠
      .completed [EsOutcome.pushed, EsOutcome.openFailed "no such file"] :=
  ⟨rfl, by decide⟩

/-- A file is flush-clean when the oracle reports no Flush failure for it. -/
def esFileOk (f : EsFileSpec) : Prop := ∀ o ∈ f.flushErrs, o = none

instance (f : EsFileSpec) : Decidable (esFileOk f) :=
  inferInstanceAs (Decidable (∀ o ∈ f.flushErrs, o = none))

/-- The status the push2es loop gives a file that causes no fatal exit. -/
def esOutcomeOf (f : EsFileSpec) : EsOutcome :=
  match f.openErr with
  | some e => .openFailed e
  | none =>
    match f.headerErr with
    | some e => .headerFailed e
    | none => .pushed

/-- On a flush-clean file the line loop never exits the process. -/
theorem esLineLoop_none (fe : List (Option String)) (hfe : ∀ o ∈ fe, o = none) :
    ∀ n i k : Nat, esLineLoop fe n i k = none := by
  intro n
  induction n with
  | zero =>
    intro i k
    rw [esLineLoop]
    split
    · exact flushResult_none fe k hfe
    · rfl
  | succ n ih =>
    intro i k
    rw [esLineLoop]
    split
    · simp only [flushResult_none fe k hfe]
      exact ih 0 (k + 1)
    · exact ih (i + 1) k

/-- A flush-clean file is processed without exiting, whatever its open or
header outcome. -/
theorem esProcessFile_ok (f : EsFileSpec) (hf : esFileOk f) :
    esProcessFile f = .ok (esOutcomeOf f) := by
  cases ho : f.openErr with
  | some e => simp only [esProcessFile, esOutcomeOf, ho]
  | none =>
    cases hh : f.headerErr with
    | some e => simp only [esProcessFile, esOutcomeOf, ho, hh]
    | none =>
      simp only [esProcessFile, esOutcomeOf, ho, hh,
        esLineLoop_none f.flushErrs hf f.nLines 0 0]

/-- A run over flush-clean files completes with one status per file. -/
theorem push2es_ok (files : List EsFileSpec) (h : ∀ f ∈ files, esFileOk f) :
    push2es files = .completed (files.map esOutcomeOf) := by
  induction files with
  | nil => rfl
  | cons f rest ih =>
    simp only [push2es, esProcessFile_ok f (h f (by simp)),
      ih (fun q hq => h q (by simp [hq])), List.map_cons]

/-- C2 amended: in the relational path every per-file error (open, header,
conversion, flush) is contained — every file yields a status line and the
run never exits; in the index path open and header errors are likewise
contained, and a run whose files are flush-clean completes with one status
per file, but (per the counterexample) an index-path bulk-flush error
terminates the whole run through fatal. -/
theorem claim2_amended (guess : String → Kind) (bsize : Nat)
    (pgFiles : List PgFileSpec) (esFiles : List EsFileSpec) :
    (uploadFilesPG guess bsize pgFiles).length = pgFiles.length ∧
    ((∀ f ∈ esFiles, esFileOk f) →
      ∃ outs : List EsOutcome, push2es esFiles = .completed outs ∧
        outs.length = esFiles.length) := by
  constructor
  · exact List.length_map pgFiles (uploadFilePG guess bsize)
  · intro h
    exact ⟨esFiles.map esOutcomeOf, push2es_ok esFiles h, List.length_map _ _⟩

/-- A relational-path file whose open fails. -/
def c2pgOpenFail : PgFileSpec := ⟨some "no such file", ⟨none, [], true, none, [], none, [], none⟩⟩

/-- A relational-path file whose upload fails at the first CopyFrom. -/
def c2pgFlushFail : PgFileSpec := ⟨none, c10envFlush⟩

/-- An index-path file whose header parse fails. -/
def c2esHeaderFail : EsFileSpec := ⟨none, some "bad header", 0, []⟩

/-- Witness for the amended C2: a relational run over an open failure and
a flush failure still yields two status lines, and an index run over a
header failure completes with one status. -/
theorem claim2_witness :
    (uploadFilesPG constGuess 1 [c2pgOpenFail, c2pgFlushFail]).length = 2 ∧
    ∃ outs : List EsOutcome, push2es [c2esHeaderFail] = .completed outs ∧ outs.length = 1 :=
  ⟨(claim2_amended constGuess 1 [c2pgOpenFail, c2pgFlushFail] [c2esHeaderFail]).1,
   (claim2_amended constGuess 1 [c2pgOpenFail, c2pgFlushFail] [c2esHeaderFail]).2 (by decide)⟩

/-! ## Mapping builder for the index sink (newMessageFields)

The Go field descriptors are mirrored structure by structure; the Go
string map is modelled as an insertion-ordered association list with
replace-on-assign semantics, which preserves exactly the lookup behavior
the claims are about. Field names here are Lean strings; the case fold of
strings.ToLower is modelled on ASCII with Char.toLower. -/

/-- Go struct doubleEsField. -/
structure DoubleEsField where
  Typ : String
  Store : Bool
deriving DecidableEq

/-- Go struct boolEsField. -/
structure BoolEsField where
  Typ : String
  Store : Bool
deriving DecidableEq

/-- Go struct ipEsField. -/
structure IpEsField where
  Typ : String
  Store : Bool
deriving DecidableEq

/-- Go struct rawRawEsField. -/
structure RawRawEsField where
  Typ : String
deriving DecidableEq

/-- Go struct rawEsField. -/
structure RawEsField where
  Raw : RawRawEsField
deriving DecidableEq

/-- Go struct strMultiEsField. -/
structure StrMultiEsField where
  Typ : String
  Store : Bool
  Fields : RawEsField
  Copy : String
deriving DecidableEq

/-- Go struct strEsField. -/
structure StrEsField where
  Typ : String
  Store : Bool
  Copy : String
deriving DecidableEq

/-- Go struct dateEsField. -/
structure DateEsField where
  Typ : String
  Format : String
  Store : Bool
deriving DecidableEq

/-- Go struct timeEsField. -/
structure TimeEsField where
  Typ : String
  Format : String
  Store : Bool
deriving DecidableEq

/-- Go struct datetimeEsField. -/
structure DatetimeEsField where
  Typ : String
  Format : String
  Store : Bool
deriving DecidableEq

/-- Go struct longEsField. -/
structure LongEsField where
  Typ : String
  Store : Bool
deriving DecidableEq

/-- The anyEsField interface value: one of the descriptor structs. -/
inductive AnyEsField where
  | double (f : DoubleEsField)
  | boolF (f : BoolEsField)
  | ipF (f : IpEsField)
  | multi (f : StrMultiEsField)
  | strF (f : StrEsField)
  | dateF (f : DateEsField)
  | timeF (f : TimeEsField)
  | datetimeF (f : DatetimeEsField)
  | longF (f : LongEsField)
deriving DecidableEq

/-- Embedding of newDoubleField. -/
def newDoubleField : DoubleEsField := ⟨"double", true⟩

/-- Embedding of newBoolField. -/
def newBoolField : BoolEsField := ⟨"boolean", true⟩

/-- Embedding of newIPField. -/
def newIPField : IpEsField := ⟨"ip", true⟩

/-- Embedding of newMulti: searchable text with an exact-match raw
sub-field and copy-through to fulltext. -/
def newMulti : StrMultiEsField := ⟨"text", true, ⟨⟨"keyword"⟩⟩, "fulltext"⟩

/-- Embedding of newKeyword: exact-match keyword, stored, with fulltext
copy-through when requested (the Go zero value leaves Copy empty). -/
def newKeyword (copyfull : Bool) : StrEsField :=
  ⟨"keyword", true, if copyfull then "fulltext" else ""⟩

/-- Embedding of newTextField. -/
def newTextField (copyfull : Bool) : StrEsField :=
  ⟨"text", true, if copyfull then "fulltext" else ""⟩

/-- Embedding of newDateField. -/
def newDateField : DateEsField := ⟨"date", "strict_date", true⟩

/-- Embedding of newTimeField. -/
def newTimeField : TimeEsField :=
  ⟨"date", "strict_time_no_millis||strict_time||strict_hour_minute_second||strict_hour_minute_second_fraction", true⟩

/-- Embedding of newDatetimeField. -/
def newDatetimeField : DatetimeEsField :=
  ⟨"date", "strict_date_time_no_millis||strict_date_time", true⟩

/-- Embedding of newLongField. -/
def newLongField : LongEsField := ⟨"long", true⟩

/-- Go map assignment on the association-list model: replace the binding
if the key exists, else append it. -/
def mapInsert (m : List (String × AnyEsField)) (k : String) (v : AnyEsField) :
    List (String × AnyEsField) :=
  match m with
  | [] => [(k, v)]
  | (k2, v2) :: rest =>
    if k2 = k then (k, v) :: rest else (k2, v2) :: mapInsert rest k v

/-- Go map lookup on the association-list model. -/
def lookupField : List (String × AnyEsField) → String → Option AnyEsField
  | [], _ => none
  | (k2, v) :: rest, k => if k2 = k then some v else lookupField rest k

/-- Models strings.ToLower for the ASCII field names in play. -/
def goToLower (s : String) : String := s.map Char.toLower

/-- One iteration of the field loop of newMessageFields: skip a field
whose case-folded name is excluded, special-case the four hand-tuned
names, and otherwise map the guessed Kind through the fixed table (the Go
switch has a default arm equal to the String arm; the Kind enum here is
closed, so the match is total). -/
def esFieldStep (guess : String → Kind) (excludes : List String)
    (fields : List (String × AnyEsField)) (name : String) :
    List (String × AnyEsField) :=
  if goToLower name ∈ excludes then fields
  else if name = "cs(user-agent)" then mapInsert fields name (.strF (newTextField true))
  else if name = "cs-host" then mapInsert fields name (.multi newMulti)
  else if name = "cs-uri-path" then mapInsert fields name (.multi newMulti)
  else if name = "cs-uri-query" then mapInsert fields name (.multi newMulti)
  else
    match guess name with
    | .MyDate => mapInsert fields name (.dateF newDateField)
    | .MyIP => mapInsert fields name (.ipF newIPField)
    | .MyTime => mapInsert fields name (.timeF newTimeField)
    | .MyTimestamp => mapInsert fields name (.datetimeF newDatetimeField)
    | .MyURI => mapInsert fields name (.strF (newKeyword false))
    | .Float64 => mapInsert fields name (.double newDoubleField)
    | .Int64 => mapInsert fields name (.longF newLongField)
    | .Bool => mapInsert fields name (.boolF newBoolField)
    | .String => mapInsert fields name (.strF (newKeyword true))

/-- Embedding of newMessageFields: iterate the declared field names, then
always add the two implicit fields: the ingestion-timestamp datetime
field and the fulltext aggregate (type text, not stored, no copy). -/
def newMessageFields (guess : String → Kind) (fieldNames excludes : List String) :
    List (String × AnyEsField) :=
  let fields := fieldNames.foldl (esFieldStep guess excludes) []
  mapInsert (mapInsert fields "@timestamp" (.datetimeF newDatetimeField))
    "fulltext" (.strF ⟨"text", false, ""⟩)

/-- Inserted key is found with its value. -/
theorem lookupField_mapInsert_self (m : List (String × AnyEsField)) (k : String)
    (v : AnyEsField) : lookupField (mapInsert m k v) k = some v := by
  induction m with
  | nil => simp [mapInsert, lookupField]
  | cons p rest ih =>
    by_cases hk : p.1 = k
    · simp [mapInsert, hk, lookupField]
    · simp [mapInsert, hk, lookupField, ih]

/-- Other keys are untouched by an insert. -/
theorem lookupField_mapInsert_ne (m : List (String × AnyEsField)) (k q : String)
    (v : AnyEsField) (hne : k ≠ q) :
    lookupField (mapInsert m k v) q = lookupField m q := by
  induction m with
  | nil => simp [mapInsert, lookupField, hne]
  | cons p rest ih =>
    by_cases hk : p.1 = k
    · simp [mapInsert, hk, lookupField, hne]
    · simp only [mapInsert, if_neg hk, lookupField]
      by_cases hq : p.1 = q
      · simp [hq]
      · simp [hq, ih]

/-- One loop iteration adds exactly the non-excluded current name. -/
theorem lookupField_esFieldStep (guess : String → Kind) (excludes : List String)
    (m : List (String × AnyEsField)) (name q : String) :
    (lookupField (esFieldStep guess excludes m name) q).isSome ↔
      ((q = name ∧ goToLower name ∉ excludes) ∨ (lookupField m q).isSome) := by
  by_cases hex : goToLower name ∈ excludes
  · rw [esFieldStep, if_pos hex]
    constructor
    · exact fun h => Or.inr h
    · rintro (⟨_, hq⟩ | h)
      · exact absurd hex hq
      · exact h
  · have hins : ∀ v : AnyEsField,
        (lookupField (mapInsert m name v) q).isSome ↔
          ((q = name ∧ goToLower name ∉ excludes) ∨ (lookupField m q).isSome) := by
      intro v
      by_cases hq : name = q
      · subst hq
        rw [lookupField_mapInsert_self]
        simp [hex]
      · rw [lookupField_mapInsert_ne m name q v hq]
        constructor
        · exact fun h => Or.inr h
        · rintro (⟨hq2, _⟩ | h)
          · exact absurd hq2.symm hq
          · exact h
    rw [esFieldStep, if_neg hex]
    by_cases h1 : name = "cs(user-agent)"
    · rw [if_pos h1]; exact hins _
    rw [if_neg h1]
    by_cases h2 : name = "cs-host"
    · rw [if_pos h2]; exact hins _
    rw [if_neg h2]
    by_cases h3 : name = "cs-uri-path"
    · rw [if_pos h3]; exact hins _
    rw [if_neg h3]
    by_cases h4 : name = "cs-uri-query"
    · rw [if_pos h4]; exact hins _
    rw [if_neg h4]
    cases hg : guess name <;> exact hins _

/-- The whole field loop contains exactly the non-excluded declared names
on top of what was already in the accumulator. -/
theorem lookupField_foldl (guess : String → Kind) (excludes : List String) :
    ∀ (names : List String) (m : List (String × AnyEsField)) (q : String),
      (lookupField (names.foldl (esFieldStep guess excludes) m) q).isSome ↔
        ((q ∈ names ∧ goToLower q ∉ excludes) ∨ (lookupField m q).isSome) := by
  intro names
  induction names with
  | nil => simp
  | cons name rest ih =>
    intro m q
    rw [List.foldl_cons, ih]
    rw [lookupField_esFieldStep]
    constructor
    · rintro (⟨hq, hn⟩ | ⟨hq, hn⟩ | h)
      · exact Or.inl ⟨List.mem_cons_of_mem name hq, hn⟩
      · exact Or.inl ⟨by simp [hq], by rw [hq]; exact hn⟩
      · exact Or.inr h
    · rintro (⟨hq, hn⟩ | h)
      · rw [List.mem_cons] at hq
        rcases hq with hq | hq
        · exact Or.inr (Or.inl ⟨hq, by rw [← hq]; exact hn⟩)
        · exact Or.inl ⟨hq, hn⟩
      · exact Or.inr (Or.inr h)

/-! ## Claim C8 -/

/-- C8: the mapping always contains the implicit ingestion-timestamp
datetime field and the implicit fulltext aggregate (text, not separately
stored), whatever the inputs; and for every other name, the mapping
contains it exactly when it is a declared field name whose case-folded
form is not excluded (a field is skipped exactly when its case-insensitive
name is in the exclude set). -/
theorem claim8 (guess : String → Kind) (fieldNames excludes : List String) :
    lookupField (newMessageFields guess fieldNames excludes) "@timestamp"
      = some (.datetimeF newDatetimeField) ∧
    lookupField (newMessageFields guess fieldNames excludes) "fulltext"
      = some (.strF ⟨"text", false, ""⟩) ∧
    (∀ name : String, name ≠ "@timestamp" → name ≠ "fulltext" →
      ((lookupField (newMessageFields guess fieldNames excludes) name).isSome ↔
        (name ∈ fieldNames ∧ goToLower name ∉ excludes))) := by
  refine ⟨?_, ?_, ?_⟩
  · rw [newMessageFields]
    rw [lookupField_mapInsert_ne _ "fulltext" "@timestamp" _ (by decide)]
    exact lookupField_mapInsert_self _ _ _
  · exact lookupField_mapInsert_self _ _ _
  · intro name h1 h2
    rw [newMessageFields]
    rw [lookupField_mapInsert_ne _ "fulltext" name _ (fun hc => h2 hc.symm)]
    rw [lookupField_mapInsert_ne _ "@timestamp" name _ (fun hc => h1 hc.symm)]
    rw [lookupField_foldl]
    simp [lookupField]

/-- Witness for C8 at the spec's scenario: names cs-host, sc-status and
x-custom with x-custom excluded; the two implicit fields are present and
cs-host is present exactly because it is declared and not excluded. -/
theorem claim8_witness :
    lookupField (newMessageFields constGuess ["cs-host", "sc-status", "x-custom"]
        ["x-custom"]) "@timestamp" = some (.datetimeF newDatetimeField) ∧
    lookupField (newMessageFields constGuess ["cs-host", "sc-status", "x-custom"]
        ["x-custom"]) "fulltext" = some (.strF ⟨"text", false, ""⟩) ∧
    ((lookupField (newMessageFields constGuess ["cs-host", "sc-status", "x-custom"]
        ["x-custom"]) "cs-host").isSome ↔
      ("cs-host" ∈ ["cs-host", "sc-status", "x-custom"] ∧
        goToLower "cs-host" ∉ ["x-custom"])) :=
  ⟨(claim8 constGuess ["cs-host", "sc-status", "x-custom"] ["x-custom"]).1,
   (claim8 constGuess ["cs-host", "sc-status", "x-custom"] ["x-custom"]).2.1,
   (claim8 constGuess ["cs-host", "sc-status", "x-custom"] ["x-custom"]).2.2
     "cs-host" (by decide) (by decide)⟩

end Wlp
